import Mathlib

/-!
# Verification of the Diff Application Engine (`src/handlers/applyDiff.js`)

Shallow embedding of the `apply_diffs` tool handler of the fileditor-mcp
repository. File content is modelled as a Lean `String`; the JavaScript
operations used by the handler (`String.prototype.split('\n')`,
`Array.prototype.join('\n')`, `Array.prototype.slice`,
`String.prototype.trim`, stable `Array.prototype.sort`) are embedded as
executable Lean functions over `String` / `List`.
-/

namespace Fileditor

/-- JS `content.split('\n')`: split a string on the newline character.
Matches `List.splitOn '\n'` on the underlying character list. -/
def splitNl (s : String) : List String :=
  (s.data.splitOn '\n').map String.mk

/-- JS `lines.join('\n')`: join a list of strings with newline. -/
def joinNl (ls : List String) : String :=
  String.mk (List.intercalate ['\n'] (ls.map String.data))

/-- JS whitespace as recognised by `String.prototype.trim` (ASCII range). -/
def isJsWhitespace (c : Char) : Bool :=
  c = ' ' || c = '\t' || c = '\n' || c = '\r' || c = '\x0b' || c = '\x0c'

/-- JS `line.trim()`: strip leading and trailing whitespace. -/
def jsTrim (s : String) : String :=
  String.mk (((s.data.dropWhile isJsWhitespace).reverse.dropWhile isJsWhitespace).reverse)

/-- JS `Array.prototype.slice(start, end)` with possibly negative indices:
a negative index counts from the end of the array; indices are clamped
to `[0, length]`; the slice is the half-open range `[start, end)`. -/
def jsSlice (l : List α) (s e : Int) : List α :=
  let n : Int := l.length
  let s' : Int := if s < 0 then max (n + s) 0 else min s n
  let e' : Int := if e < 0 then max (n + e) 0 else min e n
  (l.take e'.toNat).drop s'.toNat

/-- Round trip: splitting on newline and rejoining gives back the string.
JS: `lines.join('\n')` after `content.split('\n')` is the identity. -/
theorem joinNl_splitNl (s : String) : joinNl (splitNl s) = s := by
  simp only [joinNl, splitNl, List.map_map]
  have h : (String.data ∘ String.mk) = id := rfl
  rw [h, List.map_id, List.intercalate_splitOn]

/-- One diff operation, as built by `handle` from the request arrays:
`{ search_content, replace_content, start_line, originalIndex }`. -/
structure Diff where
  search_content : String
  replace_content : String
  start_line : Int
  originalIndex : Nat
deriving Repr, DecidableEq

/-- Result of `applySingleDiff`.  The JS function returns an object whose
fields depend on success and on `dryRun`; fields that are absent on a
given path keep their default here (`newLines` is only meaningful on a
successful non-dry run, `error` only on failure). -/
structure SingleResult where
  success : Bool
  actualStartLine : Int := 0
  endLine : Int := 0
  searchLines : List String := []
  replaceLines : List String := []
  lineDiff : Int := 0
  newLines : List String := []
  error : String := ""
  originalIndex : Nat := 0
  originalStartLine : Int := 0
deriving Repr, DecidableEq

/-- `ApplyDiffHandler.applySingleDiff(diff, lines, lineOffset, trim, dryRun)`:
apply or validate a single diff operation against a line buffer. -/
def applySingleDiff (diff : Diff) (lines : List String) (lineOffset : Int)
    (trim : Bool) (dryRun : Bool) : SingleResult :=
  let actualStartLine : Int := diff.start_line + lineOffset
  if actualStartLine > (lines.length : Int) then
    { success := false
      error := "start_line exceeds file length"
      originalIndex := diff.originalIndex
      originalStartLine := diff.start_line }
  else
    let searchLines := splitNl diff.search_content
    let endLine : Int := actualStartLine + searchLines.length - 1
    if endLine > (lines.length : Int) then
      { success := false
        error := "Search content extends beyond file length"
        originalIndex := diff.originalIndex
        originalStartLine := diff.start_line }
    else
      let targetLines := jsSlice lines (actualStartLine - 1) endLine
      let targetContent := joinNl targetLines
      let searchForComparison :=
        if trim then joinNl ((splitNl diff.search_content).map jsTrim)
        else diff.search_content
      let targetForComparison :=
        if trim then joinNl (targetLines.map jsTrim)
        else targetContent
      if targetForComparison ≠ searchForComparison then
        { success := false
          error := "Content mismatch"
          originalIndex := diff.originalIndex
          originalStartLine := diff.start_line }
      else
        let replaceLines := splitNl diff.replace_content
        let lineDiff : Int := replaceLines.length - searchLines.length
        if dryRun then
          { success := true
            actualStartLine := actualStartLine
            endLine := endLine
            searchLines := searchLines
            replaceLines := replaceLines
            lineDiff := lineDiff
            originalIndex := diff.originalIndex }
        else
          let beforeLines := jsSlice lines 0 (actualStartLine - 1)
          let afterLines := jsSlice lines endLine lines.length
          { success := true
            actualStartLine := actualStartLine
            endLine := endLine
            searchLines := searchLines
            replaceLines := replaceLines
            lineDiff := lineDiff
            newLines := beforeLines ++ replaceLines ++ afterLines
            originalIndex := diff.originalIndex }

/-- One entry of the `results` array built by `handle`:
`{ index, start_line, status, message }` with `status` one of
`"success"`, `"fail"`, `"aborted"`. -/
structure DiffReport where
  index : Nat
  start_line : Int
  status : String
  message : String
deriving Repr, DecidableEq

/-- Errors thrown by `handle`.  JS throws `Error(message)`; the
constructors distinguish the throw sites.  `jsTypeError` models the
TypeError raised by reading a property of `undefined` (accessing
`results[0]` when the request has zero diffs, or using the fields of a
failed result on the atomic commit path). -/
inductive HandleError where
  | fileNotFound
  | arrayLengthMismatch
  | invalidStartLine (v : Int) (idx : Nat)
  | atomicAborted (results : List DiffReport) (message : String)
  | singleDiffFailed (message : String)
  | jsTypeError
deriving Repr, DecidableEq

/-- Observable outcome of one `handle` call: the content passed to the
write-file collaborator (`none` when `FileUtils.writeFile` was never
invoked), the response message or thrown error, and the final per-diff
`results` array and `appliedCount` of the handler. -/
structure HandleOutcome where
  written : Option String
  result : Except HandleError String
  reports : List DiffReport
  appliedCount : Nat
deriving Repr

/-- Request arguments after array normalization (the JS handler wraps
scalar arguments into one-element arrays; the claims are stated over the
array form). -/
structure HandleArgs where
  search_content : List String
  replace_content : List String
  start_line : List Int
  atomic : Bool := true
  trim : Bool := false

/-- The `for` loop validating `startLineArray[i] < 1`, returning the
first offending value and its index. -/
def findInvalidStart : List Int → Nat → Option (Int × Nat)
  | [], _ => none
  | v :: rest, i => if v < 1 then some (v, i) else findInvalidStart rest (i + 1)

/-- `searchArray.map((searchContent, index) => ({...}))`: build the diff
objects tagged with their original request index. -/
def mkDiffs (sa ra : List String) (sl : List Int) : List Diff :=
  (List.range sa.length).map fun i =>
    { search_content := sa.getD i ""
      replace_content := ra.getD i ""
      start_line := sl.getD i 0
      originalIndex := i }

/-- `.sort((a, b) => a.start_line - b.start_line)`: stable ascending sort
by start line (JS `Array.prototype.sort` is stable; insertion sort with a
non-strict comparison is a stable sort, and unlike `List.mergeSort` it is
structurally recursive, so concrete instances evaluate in the kernel). -/
def sortDiffs (ds : List Diff) : List Diff :=
  ds.insertionSort fun a b => a.start_line ≤ b.start_line

/-- The atomic-mode validation loop: dry-run each sorted diff against a
scratch copy `tempLines`, splicing simulated replacements and advancing
`lineOffset`; stops at the first failure, returning the failed result. -/
def validateLoop (trim : Bool) :
    List Diff → List String → Int → Except SingleResult (List String × Int)
  | [], tempLines, off => .ok (tempLines, off)
  | d :: ds, tempLines, off =>
    let v := applySingleDiff d tempLines off trim true
    if v.success then
      let beforeLines := jsSlice tempLines 0 (v.actualStartLine - 1)
      let afterLines := jsSlice tempLines v.endLine tempLines.length
      validateLoop trim ds (beforeLines ++ v.replaceLines ++ afterLines) (off + v.lineDiff)
    else
      .error v

/-- The `results` array built after a validation failure in atomic mode:
the failing diff's slot gets status `"fail"`; every other slot is filled
with status `"aborted"`. -/
def buildAbortResults (n : Nat) (startLines : List Int) (v : SingleResult) :
    List DiffReport :=
  (List.range n).map fun i =>
    if i = v.originalIndex then
      { index := i, start_line := v.originalStartLine, status := "fail",
        message := v.error }
    else
      { index := i, start_line := startLines.getD i 0, status := "aborted",
        message := "Operation aborted due to validation failures in atomic mode" }

/-- Success message recorded for an applied diff. -/
def mkSuccessMessage (r : SingleResult) (startLine : Int) : String :=
  "Replaced " ++ toString r.searchLines.length ++ " line(s) at line "
    ++ toString startLine
    ++ (if r.lineDiff > 0 then " (added " ++ toString r.lineDiff ++ " line(s))"
        else if r.lineDiff < 0 then " (removed " ++ toString (-r.lineDiff) ++ " line(s))"
        else "")

/-- The report recorded for a successfully applied diff. -/
def successReport (d : Diff) (r : SingleResult) : DiffReport :=
  { index := d.originalIndex, start_line := d.start_line, status := "success",
    message := mkSuccessMessage r d.start_line }

/-- The commit loop over the sorted diffs.  On the `!atomic || diffCount === 1`
path a failed diff is recorded as `"fail"` and skipped without touching
`lines` or `lineOffset`; on the atomic path the JS code uses the failed
result's `undefined` fields, which raises a TypeError (modelled as
`.error ()` — unreachable after successful validation). -/
def commitLoop (trim : Bool) (nonAtomicPath : Bool) :
    List Diff → List String → Int → List DiffReport → Nat →
    Except Unit (List String × Int × List DiffReport × Nat)
  | [], lines, off, reps, applied => .ok (lines, off, reps, applied)
  | d :: ds, lines, off, reps, applied =>
    let r := applySingleDiff d lines off trim false
    if nonAtomicPath then
      if r.success then
        commitLoop trim nonAtomicPath ds r.newLines (off + r.lineDiff)
          (reps ++ [successReport d r]) (applied + 1)
      else
        commitLoop trim nonAtomicPath ds lines off
          (reps ++ [{ index := d.originalIndex, start_line := d.start_line,
                      status := "fail", message := r.error }]) applied
    else
      if r.success then
        commitLoop trim nonAtomicPath ds r.newLines (off + r.lineDiff)
          (reps ++ [successReport d r]) (applied + 1)
      else
        .error ()

/-- Re-project the recorded reports into the `results` array indexed by
`originalIndex` (i.e. the caller's submission order). -/
def assembleReports (n : Nat) (reps : List DiffReport) : List DiffReport :=
  (List.range n).map fun i =>
    (reps.find? fun r => r.index = i).getD
      { index := i, start_line := 0, status := "", message := "" }

/-- The per-diff detail block appended to response / error messages. -/
def reportBlock (reps : List DiffReport) : String :=
  reps.foldl (fun acc r =>
    acc ++ "\nDiff " ++ toString (r.index + 1) ++ ":\n  Status: " ++ r.status
      ++ "\n  Start Line: " ++ toString r.start_line
      ++ "\n  Message: " ++ r.message ++ "\n") ""

/-- The message of the error thrown on atomic abort. -/
def abortMessage (n : Nat) (results : List DiffReport) : String :=
  "Atomic operation failed: 1/" ++ toString n
    ++ " diffs would fail. No changes applied.\n\nDetailed results:\n"
    ++ reportBlock results

/-- The batch-mode response message. -/
def batchMessage (atomic : Bool) (n applied lineCount : Nat)
    (results : List DiffReport) : String :=
  "Batch diff operation (" ++ (if atomic then "atomic" else "non-atomic")
    ++ ") completed: " ++ toString applied ++ "/" ++ toString n
    ++ " diffs applied successfully"
    ++ (if n - applied > 0 then " (" ++ toString (n - applied) ++ " failed)" else "")
    ++ ". File now has " ++ toString lineCount
    ++ " lines.\n\nDetailed results:\n" ++ reportBlock results

/-- Everything after (a possible) atomic validation: run the commit loop,
write the new content back, and build the response. -/
def commitPhase (atomic trim : Bool) (diffCount : Nat) (diffs : List Diff)
    (lines : List String) : HandleOutcome :=
  let nonAtomicPath := !atomic || diffCount == 1
  match commitLoop trim nonAtomicPath diffs lines 0 [] 0 with
  | .error () =>
    { written := none, result := .error .jsTypeError, reports := [], appliedCount := 0 }
  | .ok (finalLines, _off, reps, applied) =>
    let newContent := joinNl finalLines
    let results := assembleReports diffCount reps
    if diffCount > 1 then
      { written := some newContent
        result := .ok (batchMessage atomic diffCount applied finalLines.length results)
        reports := results
        appliedCount := applied }
    else
      match results with
      | [] =>
        { written := some newContent, result := .error .jsTypeError,
          reports := results, appliedCount := applied }
      | r0 :: _ =>
        if r0.status = "success" then
          { written := some newContent
            result := .ok ("Successfully applied diff: " ++ r0.message
              ++ ". File now has " ++ toString finalLines.length ++ " lines.")
            reports := results
            appliedCount := applied }
        else
          { written := some newContent
            result := .error (.singleDiffFailed r0.message)
            reports := results
            appliedCount := applied }

/-- `ApplyDiffHandler.handle(args)` for an existing file whose current
content is `content`.  (The `FileUtils.fileExists` guard and the scalar
broadcasting of the three request parameters happen before the logic
modelled here.) -/
def handle (args : HandleArgs) (content : String) : HandleOutcome :=
  let searchArray := args.search_content
  let replaceArray := args.replace_content
  let startLineArray := args.start_line
  if searchArray.length ≠ replaceArray.length ∨
      searchArray.length ≠ startLineArray.length then
    { written := none, result := .error .arrayLengthMismatch,
      reports := [], appliedCount := 0 }
  else
    match findInvalidStart startLineArray 0 with
    | some (v, i) =>
      { written := none, result := .error (.invalidStartLine v i),
        reports := [], appliedCount := 0 }
    | none =>
      let diffCount := searchArray.length
      let diffs := sortDiffs (mkDiffs searchArray replaceArray startLineArray)
      let lines := splitNl content
      if args.atomic && decide (diffCount > 1) then
        match validateLoop args.trim diffs lines 0 with
        | .error v =>
          let results := buildAbortResults diffCount startLineArray v
          { written := none
            result := .error (.atomicAborted results (abortMessage diffCount results))
            reports := results
            appliedCount := 0 }
        | .ok _ =>
          commitPhase args.atomic args.trim diffCount diffs lines
      else
        commitPhase args.atomic args.trim diffCount diffs lines

/-! ## Helper lemmas about line splitting and joining -/

/-- No piece produced by `splitOnP p` contains an element satisfying `p`. -/
theorem not_of_mem_splitOnP {p : α → Bool} {xs : List α} :
    ∀ l ∈ xs.splitOnP p, ∀ a ∈ l, ¬(p a = true) := by
  induction xs with
  | nil =>
    intro l hl a ha
    rw [List.splitOnP_nil] at hl
    rcases List.mem_singleton.mp hl with rfl
    exact absurd ha (List.not_mem_nil a)
  | cons hd tl ih =>
    by_cases h : p hd = true
    · rw [List.splitOnP_cons, if_pos h]
      intro l hl a ha
      rcases List.mem_cons.mp hl with rfl | hl'
      · exact absurd ha (List.not_mem_nil a)
      · exact ih l hl' a ha
    · rw [List.splitOnP_cons, if_neg h]
      obtain ⟨h', t', heq⟩ : ∃ h' t', tl.splitOnP p = h' :: t' := by
        cases htl : tl.splitOnP p with
        | nil => exact absurd htl (List.splitOnP_ne_nil p tl)
        | cons a b => exact ⟨a, b, rfl⟩
      rw [heq]
      intro l hl a ha
      rcases List.mem_cons.mp hl with rfl | hl'
      · rcases List.mem_cons.mp ha with rfl | ha'
        · exact h
        · exact ih h' (heq ▸ List.mem_cons_self h' t') a ha'
      · exact ih l (heq ▸ List.mem_cons.mpr (Or.inr hl')) a ha

/-- Lines produced by `splitNl` never contain a newline character. -/
theorem newline_not_mem_splitNl {s : String} :
    ∀ t ∈ splitNl s, '\n' ∉ t.data := by
  intro t ht hmem
  simp only [splitNl, List.mem_map] at ht
  obtain ⟨l, hl, rfl⟩ := ht
  have : ∀ a ∈ l, ¬((a == '\n') = true) := by
    intro a ha
    exact not_of_mem_splitOnP (p := fun a => a == '\n') l (by simpa [List.splitOn] using hl) a ha
  exact this '\n' hmem (beq_self_eq_true '\n')

/-- `splitNl` never returns the empty list. -/
theorem splitNl_ne_nil (s : String) : splitNl s ≠ [] := by
  simp only [splitNl, List.splitOn]
  intro h
  exact List.splitOnP_ne_nil _ _ (List.map_eq_nil_iff.mp h)

/-- `jsTrim` only removes characters, so it preserves newline-freeness. -/
theorem jsTrim_no_newline {s : String} (h : '\n' ∉ s.data) :
    '\n' ∉ (jsTrim s).data := by
  simp only [jsTrim]
  intro hmem
  apply h
  have h1 : '\n' ∈ (s.data.dropWhile isJsWhitespace).reverse.dropWhile isJsWhitespace := by
    simpa using hmem
  have h2 : '\n' ∈ (s.data.dropWhile isJsWhitespace).reverse :=
    (List.dropWhile_sublist _).mem h1
  have h3 : '\n' ∈ s.data.dropWhile isJsWhitespace := List.mem_reverse.mp h2
  exact (List.dropWhile_sublist _).mem h3

/-- `String.data` is injective. -/
theorem string_data_injective : Function.Injective String.data := by
  intro a b h
  cases a
  cases b
  exact congrArg String.mk h

/-- Splitting a joined newline-free, nonempty list of lines recovers it. -/
theorem splitNl_joinNl {ls : List String} (h : ∀ t ∈ ls, '\n' ∉ t.data)
    (hne : ls ≠ []) : splitNl (joinNl ls) = ls := by
  simp only [splitNl, joinNl]
  have hx : ∀ l ∈ ls.map String.data, '\n' ∉ l := by
    intro l hl
    obtain ⟨t, ht, rfl⟩ := List.mem_map.mp hl
    exact h t ht
  have hne' : ls.map String.data ≠ [] := fun hnil => hne (List.map_eq_nil_iff.mp hnil)
  rw [List.splitOn_intercalate _ '\n' hx hne', List.map_map]
  have hcomp : (String.mk ∘ String.data) = id := by
    funext s
    cases s
    rfl
  rw [hcomp, List.map_id]

/-- `joinNl` is injective on newline-free, nonempty line lists. -/
theorem joinNl_inj {l₁ l₂ : List String}
    (h₁ : ∀ t ∈ l₁, '\n' ∉ t.data) (h₂ : ∀ t ∈ l₂, '\n' ∉ t.data)
    (n₁ : l₁ ≠ []) (n₂ : l₂ ≠ []) (h : joinNl l₁ = joinNl l₂) : l₁ = l₂ := by
  have := congrArg splitNl h
  rwa [splitNl_joinNl h₁ n₁, splitNl_joinNl h₂ n₂] at this

/-! ## Claim theorems -/

/-- C7: applying a request whose edit list is empty (zero edits, all three
parameters given as empty arrays) leaves the file's content — and hence its
line count — unchanged: the content handed to the write-file collaborator
is exactly the original content. -/
theorem apply_diffs_empty_noop (atomic trim : Bool) (content : String) :
    (handle { search_content := [], replace_content := [], start_line := [],
              atomic := atomic, trim := trim } content).written = some content := by
  simp [handle, findInvalidStart, mkDiffs, sortDiffs, commitPhase, commitLoop,
    assembleReports, joinNl_splitNl]

/-- C8: `applySingleDiff` only checks the upper bound of the target range.
Concrete run (non-atomic): the first edit replaces 3 lines by 1, driving
the cumulative offset to −2; the second edit (original start line 2) gets
effective start line `2 + (−2) = 0`, is NOT rejected as out of range, and
its actual block is taken with the negative slice index `0 − 1 = −1`
(counted from the end of the buffer, here clamping to an empty block that
matches the empty search content), so the edit proceeds to the content
comparison and even succeeds, splicing its replacement into the buffer. -/
theorem applySingleDiff_negative_effective_start :
    (let d2 : Diff := { search_content := "", replace_content := "Z",
                        start_line := 2, originalIndex := 1 }
     d2.start_line + (-2 : Int) = 0
       ∧ (applySingleDiff d2 ["x", "d"] (-2) false false).success = true
       ∧ jsSlice (["x", "d"] : List String) (0 - 1) 0 = []
       ∧ (applySingleDiff d2 ["x", "d"] (-2) false false).newLines
           = ["x", "Z", "x", "d"])
      ∧ jsSlice (["p", "q", "r"] : List String) (-2) 3 = ["q", "r"]
      ∧ (handle { search_content := ["a\nb\nc", ""],
                  replace_content := ["x", "Z"],
                  start_line := [1, 2], atomic := false, trim := false }
          "a\nb\nc\nd").written = some "x\nZ\nx\nd" := by
  decide

/-- Helper: on the atomic path with more than one diff and a validation
failure `v`, `handle` throws the structured abort error and never invokes
the write-file collaborator. -/
theorem handle_atomic_abort (args : HandleArgs) (content : String) (v : SingleResult)
    (hlen₁ : args.search_content.length = args.replace_content.length)
    (hlen₂ : args.search_content.length = args.start_line.length)
    (hstart : findInvalidStart args.start_line 0 = none)
    (hatomic : args.atomic = true)
    (hcount : 1 < args.search_content.length)
    (hval : validateLoop args.trim
        (sortDiffs (mkDiffs args.search_content args.replace_content args.start_line))
        (splitNl content) 0 = .error v) :
    handle args content =
      { written := none
        result := .error (.atomicAborted
          (buildAbortResults args.search_content.length args.start_line v)
          (abortMessage args.search_content.length
            (buildAbortResults args.search_content.length args.start_line v)))
        reports := buildAbortResults args.search_content.length args.start_line v
        appliedCount := 0 } := by
  have hcond : ¬(args.search_content.length ≠ args.replace_content.length ∨
      args.search_content.length ≠ args.start_line.length) := by
    simp [← hlen₁, ← hlen₂]
  have hbool : (args.atomic && decide (args.search_content.length > 1)) = true := by
    rw [hatomic]
    simpa using hcount
  simp only [handle, if_neg hcond, hstart, hbool, if_true, hval]

/-- C1: for every atomic request with more than one edit whose validation
pass fails, `handle` raises the structured atomic-abort error whose report
enumerates every edit (one slot per request index, each carrying a
status), and the write-file collaborator is never invoked, so the backing
file is byte-identical to its pre-request state. -/
theorem atomic_validation_failure_no_mutation
    (args : HandleArgs) (content : String) (v : SingleResult)
    (hlen₁ : args.search_content.length = args.replace_content.length)
    (hlen₂ : args.search_content.length = args.start_line.length)
    (hstart : findInvalidStart args.start_line 0 = none)
    (hatomic : args.atomic = true)
    (hcount : 1 < args.search_content.length)
    (hval : validateLoop args.trim
        (sortDiffs (mkDiffs args.search_content args.replace_content args.start_line))
        (splitNl content) 0 = .error v) :
    (handle args content).written = none
    ∧ (handle args content).result = .error (.atomicAborted
        (buildAbortResults args.search_content.length args.start_line v)
        (abortMessage args.search_content.length
          (buildAbortResults args.search_content.length args.start_line v)))
    ∧ (handle args content).reports.map DiffReport.index
        = List.range args.search_content.length
    ∧ ∀ rep ∈ (handle args content).reports,
        rep.status = "fail" ∨ rep.status = "aborted" := by
  rw [handle_atomic_abort args content v hlen₁ hlen₂ hstart hatomic hcount hval]
  refine ⟨rfl, rfl, ?_, ?_⟩
  · simp only [buildAbortResults, List.map_map]
    conv_rhs => rw [← List.map_id (List.range args.search_content.length)]
    apply List.map_congr_left
    intro i _
    by_cases h : i = v.originalIndex <;> simp [h]
  · intro rep hrep
    simp only [buildAbortResults, List.mem_map, List.mem_range] at hrep
    obtain ⟨i, _, rfl⟩ := hrep
    by_cases h : i = v.originalIndex <;> simp [h]

/-- C3 (counterexample): with two atomic edits where the edit at sorted
position 0 (request index 0, start line 1) validates successfully and the
edit at sorted position 1 (request index 1, start line 2) fails, the
report marks the PRECEDING successfully-validated edit `"aborted"` as
well — refuting the claim that `"aborted"` is assigned exactly to the
edits after the failing edit in sorted order. -/
theorem atomic_abort_status_counterexample :
    ((handle { search_content := ["a", "XX"], replace_content := ["A", "B"],
               start_line := [1, 2], atomic := true, trim := false }
        "a\nb\nc").reports.map DiffReport.status) = ["aborted", "fail"]
    ∧ (sortDiffs (mkDiffs ["a", "XX"] ["A", "B"] [1, 2])).map Diff.originalIndex
        = [0, 1] := by
  decide

/-- C3 (amended): in the atomic validate-then-commit report, the failing
edit is reported `"fail"` and EVERY other edit — those preceding the
failing edit in sorted order (already validated successfully) as well as
those after it (never attempted) — is reported `"aborted"`. -/
theorem atomic_abort_statuses
    (args : HandleArgs) (content : String) (v : SingleResult)
    (hlen₁ : args.search_content.length = args.replace_content.length)
    (hlen₂ : args.search_content.length = args.start_line.length)
    (hstart : findInvalidStart args.start_line 0 = none)
    (hatomic : args.atomic = true)
    (hcount : 1 < args.search_content.length)
    (hval : validateLoop args.trim
        (sortDiffs (mkDiffs args.search_content args.replace_content args.start_line))
        (splitNl content) 0 = .error v) :
    ∀ rep ∈ (handle args content).reports,
      (rep.index = v.originalIndex → rep.status = "fail")
      ∧ (rep.index ≠ v.originalIndex → rep.status = "aborted") := by
  rw [handle_atomic_abort args content v hlen₁ hlen₂ hstart hatomic hcount hval]
  intro rep hrep
  simp only [buildAbortResults, List.mem_map, List.mem_range] at hrep
  obtain ⟨i, _, rfl⟩ := hrep
  by_cases h : i = v.originalIndex <;> simp [h]

/-- Witness for C1 at a concrete failing atomic request. -/
theorem atomic_validation_failure_no_mutation_witness :
    (handle { search_content := ["a", "XX"], replace_content := ["A", "B"],
              start_line := [1, 2], atomic := true, trim := false }
      "a\nb\nc").written = none :=
  (atomic_validation_failure_no_mutation
    { search_content := ["a", "XX"], replace_content := ["A", "B"],
      start_line := [1, 2], atomic := true, trim := false } "a\nb\nc"
    { success := false, error := "Content mismatch", originalIndex := 1,
      originalStartLine := 2 }
    rfl rfl rfl rfl (by decide) rfl).1

/-- Witness for the amended C3 at a concrete failing atomic request: the
report preceding the failing edit carries status `"aborted"`. -/
theorem atomic_abort_statuses_witness :
    ({ index := 0, start_line := 1, status := "aborted",
       message := "Operation aborted due to validation failures in atomic mode" }
      : DiffReport).status = "aborted" :=
  (atomic_abort_statuses
    { search_content := ["a", "XX"], replace_content := ["A", "B"],
      start_line := [1, 2], atomic := true, trim := false } "a\nb\nc"
    { success := false, error := "Content mismatch", originalIndex := 1,
      originalStartLine := 2 }
    rfl rfl rfl rfl (by decide) rfl _ (by decide)).2 (by decide)

/-- C10: for a request containing exactly one edit (whatever the value of
`atomic`), if the edit fails, `handle` throws the `Single diff failed`
error instead of returning a per-edit status report — and the write-back
of the unchanged buffer has already happened before the throw: the
write-file collaborator received exactly the original content. -/
theorem single_diff_failure_throws_after_write
    (s r : String) (n : Int) (atomic trim : Bool) (content : String)
    (hn : 1 ≤ n)
    (hfail : (applySingleDiff ⟨s, r, n, 0⟩ (splitNl content) 0 trim false).success
      = false) :
    (handle ⟨[s], [r], [n], atomic, trim⟩ content).result
      = .error (.singleDiffFailed
          (applySingleDiff ⟨s, r, n, 0⟩ (splitNl content) 0 trim false).error)
    ∧ (handle ⟨[s], [r], [n], atomic, trim⟩ content).written = some content := by
  have hstart : findInvalidStart [n] 0 = none := by
    simp only [findInvalidStart, if_neg (not_lt.mpr hn)]
  have hsort : sortDiffs (mkDiffs [s] [r] [n]) = [⟨s, r, n, 0⟩] := rfl
  simp only [handle, List.length_singleton, ne_eq, not_true_eq_false, or_self,
    if_false, hstart, hsort, gt_iff_lt, lt_self_iff_false, decide_False,
    Bool.and_false, Bool.false_eq_true, if_false, commitPhase, Bool.or_true,
    commitLoop, hfail, joinNl_splitNl, assembleReports, List.range_succ,
    List.range_zero, List.nil_append, List.map_cons, List.map_nil]
  simp [hfail, List.find?, joinNl_splitNl]

/-- Witness for C10 at a concrete failing single-edit request. -/
theorem single_diff_failure_throws_after_write_witness :
    (handle ⟨["XX"], ["Y"], [1], true, false⟩ "a\nb").result
      = .error (.singleDiffFailed
          (applySingleDiff ⟨"XX", "Y", 1, 0⟩ (splitNl "a\nb") 0 false false).error)
    ∧ (handle ⟨["XX"], ["Y"], [1], true, false⟩ "a\nb").written = some "a\nb" :=
  single_diff_failure_throws_after_write "XX" "Y" 1 true false "a\nb"
    (by decide) (by decide)

/-- Helper: the non-atomic commit loop always terminates with `.ok`, never
decreases the applied count, and leaves the buffer untouched when no
edit in it succeeded. -/
theorem commitLoop_nonAtomic_total (trim : Bool) (ds : List Diff) :
    ∀ lines off reps applied, ∃ lines' off' reps' applied',
      commitLoop trim true ds lines off reps applied
        = .ok (lines', off', reps', applied')
      ∧ applied ≤ applied'
      ∧ (applied' = applied → lines' = lines) := by
  induction ds with
  | nil =>
    intro lines off reps applied
    exact ⟨lines, off, reps, applied, rfl, le_refl _, fun _ => rfl⟩
  | cons d ds ih =>
    intro lines off reps applied
    by_cases h : (applySingleDiff d lines off trim false).success = true
    · obtain ⟨l', o', r', a', heq, hle, _⟩ :=
        ih (applySingleDiff d lines off trim false).newLines
          (off + (applySingleDiff d lines off trim false).lineDiff)
          (reps ++ [successReport d (applySingleDiff d lines off trim false)])
          (applied + 1)
      refine ⟨l', o', r', a', ?_, ?_, ?_⟩
      · simpa only [commitLoop, h, if_true] using heq
      · omega
      · intro hc
        omega
    · obtain ⟨l', o', r', a', heq, hle, himp⟩ :=
        ih lines off
          (reps ++ [{ index := d.originalIndex, start_line := d.start_line,
                      status := "fail",
                      message := (applySingleDiff d lines off trim false).error }])
          applied
      refine ⟨l', o', r', a', ?_, hle, himp⟩
      simpa only [commitLoop, h, Bool.false_eq_true, if_false] using heq

/-- Helper: whenever the commit loop completes with `.ok`, `commitPhase`
hands the joined final buffer to the write-file collaborator — on every
response branch — and reports the loop's applied count. -/
theorem commitPhase_ok (atomic trim : Bool) (n : Nat) (ds : List Diff)
    (lines l' : List String) (o' : Int) (r' : List DiffReport) (a' : Nat)
    (heq : commitLoop trim (!atomic || n == 1) ds lines 0 [] 0
      = .ok (l', o', r', a')) :
    (commitPhase atomic trim n ds lines).written = some (joinNl l')
    ∧ (commitPhase atomic trim n ds lines).appliedCount = a' := by
  simp only [commitPhase, heq]
  constructor
  · split
    · rfl
    · split
      · rfl
      · split <;> rfl
  · split
    · rfl
    · split
      · rfl
      · split <;> rfl

/-- C9: on the non-atomic path (after the structural pre-checks pass) the
write-file collaborator is always invoked, even when zero edits succeed —
and in that zero-success case the content written equals the original
file content: the buffer split on newline and rejoined unchanged. -/
theorem handle_writes_back_nonatomic (args : HandleArgs) (content : String)
    (hlen₁ : args.search_content.length = args.replace_content.length)
    (hlen₂ : args.search_content.length = args.start_line.length)
    (hstart : findInvalidStart args.start_line 0 = none)
    (hatomic : args.atomic = false) :
    ((handle args content).written).isSome = true
    ∧ ((handle args content).appliedCount = 0 →
        (handle args content).written = some content) := by
  have hcond : ¬(args.search_content.length ≠ args.replace_content.length ∨
      args.search_content.length ≠ args.start_line.length) := by
    simp [← hlen₁, ← hlen₂]
  obtain ⟨l', o', r', a', heq, hle, himp⟩ :=
    commitLoop_nonAtomic_total args.trim
      (sortDiffs (mkDiffs args.search_content args.replace_content args.start_line))
      (splitNl content) 0 [] 0
  have hout : handle args content
      = commitPhase false args.trim args.search_content.length
          (sortDiffs (mkDiffs args.search_content args.replace_content args.start_line))
          (splitNl content) := by
    simp only [handle, if_neg hcond, hstart, hatomic, Bool.false_and,
      Bool.false_eq_true, if_false]
  obtain ⟨hw, hac⟩ :=
    commitPhase_ok false args.trim args.search_content.length
      (sortDiffs (mkDiffs args.search_content args.replace_content args.start_line))
      (splitNl content) l' o' r' a' heq
  rw [hout]
  refine ⟨by rw [hw]; rfl, ?_⟩
  intro h0
  rw [hac] at h0
  rw [hw, himp h0, joinNl_splitNl]

/-- Witness for C9 at a concrete non-atomic request whose only edit fails. -/
theorem handle_writes_back_nonatomic_witness :
    ((handle ⟨["XX"], ["Y"], [1], false, false⟩ "a\nb").written).isSome = true
    ∧ ((handle ⟨["XX"], ["Y"], [1], false, false⟩ "a\nb").appliedCount = 0 →
        (handle ⟨["XX"], ["Y"], [1], false, false⟩ "a\nb").written = some "a\nb") :=
  handle_writes_back_nonatomic ⟨["XX"], ["Y"], [1], false, false⟩ "a\nb"
    rfl rfl rfl rfl

/-- C2: an edit's effective start line is always its original start line
plus the running offset (first conjunct); the commit loop advances the
offset by the applied edit's line difference after a success and leaves
it unchanged after a failure (second conjunct); concretely, on a 10-line
file, an edit at original line 2 replacing 1 line with 3 lines followed
by an edit at original line 8 locates the second edit at effective line
`8 + 2 = 10`, where it matches and applies (third conjunct). -/
theorem effective_start_line_offset :
    (∀ (d : Diff) (lines : List String) (off : Int) (trim dryRun : Bool),
      (applySingleDiff d lines off trim dryRun).success = true →
      (applySingleDiff d lines off trim dryRun).actualStartLine = d.start_line + off)
    ∧ (∀ (trim : Bool) (d : Diff) (ds : List Diff) (lines : List String)
        (off : Int) (reps : List DiffReport) (applied : Nat),
        ((applySingleDiff d lines off trim false).success = true →
          commitLoop trim true (d :: ds) lines off reps applied
            = commitLoop trim true ds
                (applySingleDiff d lines off trim false).newLines
                (off + (applySingleDiff d lines off trim false).lineDiff)
                (reps ++ [successReport d (applySingleDiff d lines off trim false)])
                (applied + 1))
        ∧ ((applySingleDiff d lines off trim false).success = false →
          commitLoop trim true (d :: ds) lines off reps applied
            = commitLoop trim true ds lines off
                (reps ++ [{ index := d.originalIndex, start_line := d.start_line,
                            status := "fail",
                            message := (applySingleDiff d lines off trim false).error }])
                applied))
    ∧ ((applySingleDiff ⟨"l2", "x\ny\nz", 2, 0⟩
          (splitNl "l1\nl2\nl3\nl4\nl5\nl6\nl7\nl8\nl9\nl10") 0 false false).success
            = true
        ∧ (applySingleDiff ⟨"l2", "x\ny\nz", 2, 0⟩
            (splitNl "l1\nl2\nl3\nl4\nl5\nl6\nl7\nl8\nl9\nl10") 0 false false).lineDiff
              = 2
        ∧ (applySingleDiff ⟨"l8", "w", 8, 1⟩
            (applySingleDiff ⟨"l2", "x\ny\nz", 2, 0⟩
              (splitNl "l1\nl2\nl3\nl4\nl5\nl6\nl7\nl8\nl9\nl10") 0 false
              false).newLines
            (0 + 2) false false).actualStartLine = 10
        ∧ (applySingleDiff ⟨"l8", "w", 8, 1⟩
            (applySingleDiff ⟨"l2", "x\ny\nz", 2, 0⟩
              (splitNl "l1\nl2\nl3\nl4\nl5\nl6\nl7\nl8\nl9\nl10") 0 false
              false).newLines
            (0 + 2) false false).success = true
        ∧ (handle ⟨["l2", "l8"], ["x\ny\nz", "w"], [2, 8], false, false⟩
            "l1\nl2\nl3\nl4\nl5\nl6\nl7\nl8\nl9\nl10").written
              = some "l1\nx\ny\nz\nl3\nl4\nl5\nl6\nl7\nw\nl9\nl10") := by
  refine ⟨?_, ?_, by decide⟩
  · intro d lines off trim dryRun h
    simp only [applySingleDiff] at h ⊢
    split_ifs at h ⊢ <;> simp_all
  · intro trim d ds lines off reps applied
    constructor
    · intro h
      simp [commitLoop, h]
    · intro h
      simp [commitLoop, h]

/-- Witness for C2's universally quantified conjuncts at a concrete input. -/
theorem effective_start_line_offset_witness :
    (applySingleDiff ⟨"l8", "w", 8, 1⟩
      ["l1", "x", "y", "z", "l3", "l4", "l5", "l6", "l7", "l8", "l9", "l10"]
      2 false false).actualStartLine = 8 + 2 :=
  effective_start_line_offset.1 ⟨"l8", "w", 8, 1⟩
    ["l1", "x", "y", "z", "l3", "l4", "l5", "l6", "l7", "l8", "l9", "l10"]
    2 false false (by decide)

/-- C6: in non-atomic mode a failing edit is recorded `"fail"` and skipped
without touching the buffer or the offset (first conjunct); the `results`
array re-projects the reports into the caller's original submission order
— position `i` always holds the report of request index `i` (second
conjunct); concretely, for edits `[A (valid), B (invalid), C (valid)]`
with `atomic=false` the file is written with both successful
substitutions applied and the per-edit statuses read
`success, fail, success` in submission order (third conjunct). -/
theorem nonatomic_mixed_commit :
    (∀ (trim : Bool) (d : Diff) (ds : List Diff) (lines : List String)
        (off : Int) (reps : List DiffReport) (applied : Nat),
      (applySingleDiff d lines off trim false).success = false →
      commitLoop trim true (d :: ds) lines off reps applied
        = commitLoop trim true ds lines off
            (reps ++ [{ index := d.originalIndex, start_line := d.start_line,
                        status := "fail",
                        message := (applySingleDiff d lines off trim false).error }])
            applied)
    ∧ (∀ (n : Nat) (reps : List DiffReport),
        (assembleReports n reps).map DiffReport.index = List.range n)
    ∧ ((handle ⟨["l2", "XX", "l5"], ["a1\na2", "B", "c"], [2, 4, 5], false, false⟩
          "l1\nl2\nl3\nl4\nl5\nl6").written = some "l1\na1\na2\nl3\nl4\nc\nl6"
        ∧ (handle ⟨["l2", "XX", "l5"], ["a1\na2", "B", "c"], [2, 4, 5], false, false⟩
            "l1\nl2\nl3\nl4\nl5\nl6").reports.map DiffReport.status
              = ["success", "fail", "success"]
        ∧ (handle ⟨["l2", "XX", "l5"], ["a1\na2", "B", "c"], [2, 4, 5], false, false⟩
            "l1\nl2\nl3\nl4\nl5\nl6").reports.map DiffReport.index = [0, 1, 2]) := by
  refine ⟨?_, ?_, by decide⟩
  · intro trim d ds lines off reps applied h
    simp [commitLoop, h]
  · intro n reps
    simp only [assembleReports, List.map_map]
    conv_rhs => rw [← List.map_id (List.range n)]
    apply List.map_congr_left
    intro i _
    cases hf : reps.find? fun r => r.index = i with
    | none => simp [hf]
    | some r =>
      have hp := List.find?_some hf
      simp only [decide_eq_true_eq] at hp
      simp [hf, hp]

/-- Witness for C6's universally quantified conjuncts at a concrete input. -/
theorem nonatomic_mixed_commit_witness :
    commitLoop false true [⟨"XX", "Y", 1, 0⟩] ["a"] 0 [] 0
      = commitLoop false true [] ["a"] 0
          [{ index := 0, start_line := 1, status := "fail",
             message := (applySingleDiff ⟨"XX", "Y", 1, 0⟩ ["a"] 0 false
               false).error }] 0 :=
  nonatomic_mixed_commit.1 false ⟨"XX", "Y", 1, 0⟩ [] ["a"] 0 [] 0 (by decide)

/-- Helper: a dry run and a real run of `applySingleDiff` traverse the
same guards, so they succeed together, and on success the real run's
result is the dry result with `newLines` set to the very splice the
validation loop simulates. -/
theorem applySingleDiff_dry_wet (d : Diff) (lines : List String) (off : Int)
    (trim : Bool) :
    (applySingleDiff d lines off trim false).success
      = (applySingleDiff d lines off trim true).success
    ∧ ((applySingleDiff d lines off trim true).success = true →
        applySingleDiff d lines off trim false
          = { applySingleDiff d lines off trim true with
              newLines :=
                jsSlice lines 0
                    ((applySingleDiff d lines off trim true).actualStartLine - 1)
                  ++ (applySingleDiff d lines off trim true).replaceLines
                  ++ jsSlice lines
                      ((applySingleDiff d lines off trim true).endLine)
                      lines.length }) := by
  constructor
  · simp only [applySingleDiff]
    split_ifs <;> rfl
  · intro h
    simp only [applySingleDiff] at h ⊢
    split_ifs at h ⊢ <;> first | rfl | simp_all

/-- C4: if the atomic validation pass over the scratch copy succeeds for
the whole sorted sequence, then re-running the identical sequence against
the real buffer on the atomic commit path succeeds for every edit (all
reports read `"success"`, and the loop never hits its failure branch) and
produces exactly the scratch buffer and offset computed by validation. -/
theorem atomic_validate_then_commit_equiv (trim : Bool) (ds : List Diff) :
    ∀ (lines tempLines : List String) (off off' : Int) (reps : List DiffReport)
      (applied : Nat),
      validateLoop trim ds lines off = .ok (tempLines, off') →
      ∃ reps₂,
        commitLoop trim false ds lines off reps applied
          = .ok (tempLines, off', reps ++ reps₂, applied + ds.length)
        ∧ ∀ rep ∈ reps₂, rep.status = "success" := by
  induction ds with
  | nil =>
    intro lines tempLines off off' reps applied hval
    simp only [validateLoop, Except.ok.injEq, Prod.mk.injEq] at hval
    obtain ⟨h1, h2⟩ := hval
    subst h1
    subst h2
    exact ⟨[], by simp [commitLoop], by simp⟩
  | cons d ds ih =>
    intro lines tempLines off off' reps applied hval
    by_cases hs : (applySingleDiff d lines off trim true).success = true
    · have hw := (applySingleDiff_dry_wet d lines off trim).2 hs
      have hws : (applySingleDiff d lines off trim false).success = true := by
        rw [(applySingleDiff_dry_wet d lines off trim).1]
        exact hs
      simp only [validateLoop, hs, if_true] at hval
      obtain ⟨reps₂, hcommit, hstatus⟩ :=
        ih _ tempLines _ off'
          (reps ++ [successReport d (applySingleDiff d lines off trim false)])
          (applied + 1) hval
      refine ⟨successReport d (applySingleDiff d lines off trim false) :: reps₂,
        ?_, ?_⟩
      · have hnew : (applySingleDiff d lines off trim false).newLines
            = jsSlice lines 0
                ((applySingleDiff d lines off trim true).actualStartLine - 1)
              ++ (applySingleDiff d lines off trim true).replaceLines
              ++ jsSlice lines ((applySingleDiff d lines off trim true).endLine)
                  lines.length := by
          rw [hw]
        have hld : (applySingleDiff d lines off trim false).lineDiff
            = (applySingleDiff d lines off trim true).lineDiff := by
          rw [hw]
        simp only [commitLoop, hws, if_true, Bool.false_eq_true, if_false,
          hnew, hld]
        rw [hcommit]
        simp [List.append_assoc, Nat.add_assoc, Nat.add_comm, Nat.add_left_comm]
      · intro rep hrep
        rcases List.mem_cons.mp hrep with rfl | hmem
        · rfl
        · exact hstatus rep hmem
    · have hsf : (applySingleDiff d lines off trim true).success = false :=
        Bool.not_eq_true _ ▸ Bool.eq_false_iff.mpr (fun hc => hs hc)
      simp only [validateLoop, hsf, Bool.false_eq_true, if_false] at hval
      exact absurd hval (by simp)

/-- Witness for C4 at a concrete two-edit atomic request whose validation
succeeds. -/
theorem atomic_validate_then_commit_equiv_witness :
    ∃ reps₂,
      commitLoop false false [⟨"a", "A", 1, 0⟩, ⟨"b", "B\nC", 2, 1⟩]
          ["a", "b", "c"] 0 [] 0
        = .ok (["A", "B", "C", "c"], 1, [] ++ reps₂, 0 + 2)
      ∧ ∀ rep ∈ reps₂, rep.status = "success" :=
  atomic_validate_then_commit_equiv false
    [⟨"a", "A", 1, 0⟩, ⟨"b", "B\nC", 2, 1⟩] ["a", "b", "c"]
    ["A", "B", "C", "c"] 0 1 [] 0 rfl

/-- Length of an in-bounds slice. -/
theorem jsSlice_length_of_bounds (l : List α) (s e : Int)
    (hs : 0 ≤ s) (hse : s ≤ e) (he : e ≤ (l.length : Int)) :
    ((jsSlice l s e).length : Int) = e - s := by
  simp only [jsSlice]
  rw [if_neg (not_lt.mpr hs), if_neg (not_lt.mpr (le_trans hs hse))]
  have h1 : min s (l.length : Int) = s := min_eq_left (le_trans hse he)
  have h2 : min e (l.length : Int) = e := min_eq_left he
  rw [h1, h2]
  simp only [List.length_drop, List.length_take]
  omega

/-- Every element of a slice is an element of the list. -/
theorem mem_jsSlice {l : List α} {s e : Int} : ∀ x ∈ jsSlice l s e, x ∈ l := by
  intro x hx
  simp only [jsSlice] at hx
  exact (List.take_sublist _ _).subset ((List.drop_sublist _ _).subset hx)

/-- C5: for an in-range edit over a newline-free buffer, the actual block
matches the search block exactly when, with `trim=true`, the two blocks
agree after stripping leading/trailing whitespace from every line on both
sides, and, with `trim=false`, when they agree verbatim line for line; in
either mode a successful match splices the replace block's lines into the
buffer exactly as supplied (`splitNl replace_content`, never trimmed). -/
theorem trim_matching_semantics (d : Diff) (lines : List String) (off : Int)
    (trim : Bool)
    (hnl : ∀ t ∈ lines, '\n' ∉ t.data)
    (h1 : 1 ≤ d.start_line + off)
    (h2 : d.start_line + off + ((splitNl d.search_content).length : Int) - 1
      ≤ (lines.length : Int)) :
    ((applySingleDiff d lines off trim false).success = true ↔
      (if trim
        then (jsSlice lines (d.start_line + off - 1)
                (d.start_line + off
                  + ((splitNl d.search_content).length : Int) - 1)).map jsTrim
              = (splitNl d.search_content).map jsTrim
        else jsSlice lines (d.start_line + off - 1)
                (d.start_line + off + ((splitNl d.search_content).length : Int) - 1)
              = splitNl d.search_content))
    ∧ ((applySingleDiff d lines off trim false).success = true →
        (applySingleDiff d lines off trim false).newLines
          = jsSlice lines 0 (d.start_line + off - 1)
            ++ splitNl d.replace_content
            ++ jsSlice lines
                (d.start_line + off + ((splitNl d.search_content).length : Int) - 1)
                (lines.length : Int)) := by
  have hk : 0 < (splitNl d.search_content).length :=
    List.length_pos.mpr (splitNl_ne_nil _)
  have hk' : (1 : Int) ≤ ((splitNl d.search_content).length : Int) := by
    exact_mod_cast hk
  have hc1 : ¬(d.start_line + off > (lines.length : Int)) := by omega
  have hc2 : ¬(d.start_line + off + ((splitNl d.search_content).length : Int) - 1
      > (lines.length : Int)) := not_lt.mpr h2
  have hTlenI := jsSlice_length_of_bounds lines (d.start_line + off - 1)
    (d.start_line + off + ((splitNl d.search_content).length : Int) - 1)
    (by omega) (by omega) h2
  have hTne : jsSlice lines (d.start_line + off - 1)
      (d.start_line + off + ((splitNl d.search_content).length : Int) - 1) ≠ [] := by
    intro h0
    rw [h0] at hTlenI
    simp at hTlenI
    omega
  have hTnl : ∀ t ∈ jsSlice lines (d.start_line + off - 1)
      (d.start_line + off + ((splitNl d.search_content).length : Int) - 1),
      '\n' ∉ t.data := fun t ht => hnl t (mem_jsSlice t ht)
  have hSnl : ∀ t ∈ splitNl d.search_content, '\n' ∉ t.data :=
    newline_not_mem_splitNl
  have hSne : splitNl d.search_content ≠ [] := splitNl_ne_nil _
  simp only [applySingleDiff]
  rw [if_neg hc1, if_neg hc2]
  generalize hT : jsSlice lines (d.start_line + off - 1)
    (d.start_line + off + ((splitNl d.search_content).length : Int) - 1) = T
  rw [hT] at hTne hTnl
  cases trim with
  | false =>
    simp only [Bool.false_eq_true, if_false]
    by_cases hcmp : joinNl T = d.search_content
    · rw [if_neg (fun hne => hne hcmp)]
      refine ⟨⟨fun _ => ?_, fun _ => rfl⟩, fun _ => rfl⟩
      rw [← splitNl_joinNl hTnl hTne, hcmp]
    · rw [if_pos hcmp]
      refine ⟨⟨fun hfalse => ?_, fun hTeq => ?_⟩, fun hfalse => ?_⟩
      · simp at hfalse
      · exact absurd (by rw [hTeq, joinNl_splitNl]) hcmp
      · simp at hfalse
  | true =>
    simp only [if_true]
    by_cases hcmp : joinNl (T.map jsTrim)
        = joinNl ((splitNl d.search_content).map jsTrim)
    · rw [if_neg (fun hne => hne hcmp)]
      refine ⟨⟨fun _ => ?_, fun _ => rfl⟩, fun _ => rfl⟩
      refine joinNl_inj ?_ ?_ ?_ ?_ hcmp
      · intro t ht
        obtain ⟨u, hu, rfl⟩ := List.mem_map.mp ht
        exact jsTrim_no_newline (hTnl u hu)
      · intro t ht
        obtain ⟨u, hu, rfl⟩ := List.mem_map.mp ht
        exact jsTrim_no_newline (hSnl u hu)
      · intro h0
        exact hTne (List.map_eq_nil_iff.mp h0)
      · intro h0
        exact hSne (List.map_eq_nil_iff.mp h0)
    · rw [if_pos hcmp]
      refine ⟨⟨fun hfalse => ?_, fun hmap => ?_⟩, fun hfalse => ?_⟩
      · simp at hfalse
      · exact absurd (congrArg joinNl hmap) hcmp
      · simp at hfalse

/-- Witness for C5 at a concrete trim-mode edit: the search block
`"hello"` matches the whitespace-padded line `"  hello  "`, and the
replacement is spliced in exactly as supplied. -/
theorem trim_matching_semantics_witness :
    (applySingleDiff ⟨"hello", "  NEW", 1, 0⟩ ["  hello  "] 0 true false).newLines
      = jsSlice ["  hello  "] 0 (1 + 0 - 1)
        ++ splitNl "  NEW"
        ++ jsSlice ["  hello  "]
            (1 + 0 + ((splitNl "hello").length : Int) - 1)
            ((["  hello  "] : List String).length : Int) :=
  (trim_matching_semantics ⟨"hello", "  NEW", 1, 0⟩ ["  hello  "] 0 true
    (by decide) (by decide) (by decide)).2 (by decide)

end Fileditor
